import Mathlib

/-!
Verification development for `commandline-parser.py`, a single-file declarative
command-line argument parser (schema builder + recursive parser/evaluator +
error model).  The parser core (`Command._parse`, `Command.parse`, `parse_arg`
and the error classes) is embedded shallowly below; printing, colour codes and
process exit are I/O and are modelled only by their control-flow effect
(a distinct `exit` outcome).
-/

/-! ### String primitives

The Python code uses `str.startswith`, `str.partition`, `str.lower`,
`int(...)`, `float(...)` and `", ".join`.  These are re-implemented over
`List Char` so that every definition evaluates by kernel reduction.
-/

/-- `arg.startswith("-")` from line 83 of the source. -/
def startsDash (s : String) : Bool :=
  match s.data with
  | [] => false
  | c :: _ => c = '-'

/-- Split a character list at the first `'='`, as `str.partition("=")` does:
returns the part before it and, when a `'='` is present, the part after it. -/
def breakEq : List Char → List Char × Option (List Char)
  | [] => ([], none)
  | c :: rest =>
    if c = '=' then ([], some rest)
    else
      match breakEq rest with
      | (pre, suf) => (c :: pre, suf)

/-- Lines 84-86 of the source: `arg.partition("=")` followed by
`if eq == "": val = None`.  Yields the switch part and the optional raw value. -/
def splitEq (s : String) : String × Option String :=
  match breakEq s.data with
  | (pre, suf) => (String.mk pre, suf.map String.mk)

/-- ASCII lowering of one character, for `str.lower()` on the values the parser
compares (`"1"`, `"true"`, `"0"`, `"false"`, float literals). -/
def lowerChar (c : Char) : Char :=
  if 'A' ≤ c ∧ c ≤ 'Z' then Char.ofNat (c.toNat + 32) else c

/-- Whitespace stripping as `int(...)` / `float(...)` do before parsing. -/
def trimChars (l : List Char) : List Char :=
  ((l.dropWhile Char.isWhitespace).reverse.dropWhile Char.isWhitespace).reverse

/-- Accumulate a decimal digit list into a natural number. -/
def digitsVal : List Char → Nat → Nat
  | [], acc => acc
  | c :: rest, acc => digitsVal rest (acc * 10 + (c.toNat - 48))

/-- Python `int(val)` in base 10: optional surrounding whitespace, optional
sign, then a nonempty digit string; anything else raises `ValueError`
(modelled as `none`). -/
def pyInt? (s : String) : Option Int :=
  match trimChars s.data with
  | '-' :: rest =>
    if rest ≠ [] ∧ rest.all Char.isDigit then some (-(digitsVal rest 0 : Int)) else none
  | '+' :: rest =>
    if rest ≠ [] ∧ rest.all Char.isDigit then some ((digitsVal rest 0 : Int)) else none
  | t => if t ≠ [] ∧ t.all Char.isDigit then some ((digitsVal t 0 : Int)) else none

/-- Split a character list on every occurrence of `sep`. -/
def splitOnChar (sep : Char) : List Char → List (List Char)
  | [] => [[]]
  | c :: rest =>
    match splitOnChar sep rest with
    | [] => if c = sep then [[], []] else [[c]]
    | g :: gs => if c = sep then [] :: g :: gs else (c :: g) :: gs

/-- Mantissa of a float literal: digits, optionally with one point, with at
least one digit overall. -/
def mantissaOk (m : List Char) : Bool :=
  match splitOnChar '.' m with
  | [a] => !a.isEmpty && a.all Char.isDigit
  | [a, b] => (!a.isEmpty || !b.isEmpty) && a.all Char.isDigit && b.all Char.isDigit
  | _ => false

/-- Exponent part of a float literal: optional sign then nonempty digits. -/
def expOk (e : List Char) : Bool :=
  match e with
  | '+' :: r => !r.isEmpty && r.all Char.isDigit
  | '-' :: r => !r.isEmpty && r.all Char.isDigit
  | r => !r.isEmpty && r.all Char.isDigit

/-- Python `float(val)` acceptance: optional whitespace and sign, then a
decimal mantissa with optional exponent, or `inf`/`infinity`/`nan`
(case-insensitive).  The numeric value itself never matters to the parser,
only acceptance versus `ValueError`. -/
def isPyFloat (s : String) : Bool :=
  let t := (trimChars s.data).map lowerChar
  let t := match t with
    | '+' :: r => r
    | '-' :: r => r
    | r => r
  if t = "inf".data ∨ t = "infinity".data ∨ t = "nan".data then true
  else
    match splitOnChar 'e' t with
    | [m] => mantissaOk m
    | [m, e] => mantissaOk m && expOk e
    | _ => false

/-- `", ".join(...)` used in the MissingOption messages (lines 113, 121). -/
def joinComma : List String → String
  | [] => ""
  | [s] => s
  | s :: rest => s ++ ", " ++ joinComma rest

/-- `"/".join(...)` used in the enum InvalidOption message (line 209). -/
def joinSlash : List String → String
  | [] => ""
  | [s] => s
  | s :: rest => s ++ "/" ++ joinSlash rest

/-! ### Error and result model -/

/-- The five `CommandLineError` variants (lines 251-273), each carrying the
arguments passed at its raise site.  `MissingOption` carries the option text
(name plus alias or subcommand listing); the others carry the token index. -/
inductive Err where
  | UnknownSwitch (index : Nat) (switch : String)
  | MissingOption (option : String)
  | TooManyPositionals (index : Nat) (val : String)
  | InvalidOption (index : Nat) (expected : String) (got : String)
  | ValueNotProvided (index : Nat)

/-- How a call to `Command.parse` can terminate the process: by printing usage
(no arguments or `--help`, lines 64-66) or by rendering a `CommandLineError`
(lines 70-73).  Both end in `sys.exit(-1)`. -/
inductive ExitKind where
  | usage
  | errored (e : Err)

/-- What can abort `Command._parse`: a `CommandLineError` raised in this frame
(catchable by the enclosing `parse`), or a `SystemExit` escaping from a nested
subcommand's `parse` (line 94), which no `except CommandLineError` catches. -/
inductive Fail where
  | err (e : Err)
  | exit (k : ExitKind)

/-- Parsed values stored in the result dict: strings, ints, floats, bools and
nested subcommand result dicts.  A float is recorded by its accepted literal;
its numeric value never influences parsing. -/
inductive Value where
  | str (s : String)
  | int (n : Int)
  | float (lit : String)
  | bool (b : Bool)
  | dict (entries : List (String × Value))

/-- The parse result: a Python dict modelled as an insertion-ordered
association list with unique keys (all operations below preserve this). -/
abbrev Dict := List (String × Value)

/-- Python dict lookup on an association list. -/
def alookup {α : Type} : List (String × α) → String → Option α
  | [], _ => none
  | (k, v) :: rest, key => if k = key then some v else alookup rest key

/-- Python dict `d[k] = v`: replace in place if the key exists (keeping its
position), otherwise append. -/
def ainsert {α : Type} : List (String × α) → String → α → List (String × α)
  | [], k, v => [(k, v)]
  | (k', v') :: rest, k, v =>
    if k' = k then (k, v) :: rest else (k', v') :: ainsert rest k v

/-- Python `d1 | d2` (right-biased dict merge): insert every entry of `d2`
into `d1` in order, so `d2`'s values win on key collisions. -/
def dmerge (d1 : Dict) : Dict → Dict
  | [] => d1
  | (k, v) :: rest => dmerge (ainsert d1 k v) rest

/-- The dict literal `{"command": arg, arg: childResult}` of lines 92-95.
Built with `ainsert` so that a subcommand actually named `"command"` collapses
to one key, as a Python dict literal would. -/
def subEntry (tok : String) (d : Dict) : Dict :=
  ainsert [("command", Value.str tok)] tok (Value.dict d)

/-! ### Value-parser specs and `parse_arg` -/

/-- The polymorphic `parser` field: a built-in type tag (`"str"`, `"int"`,
`"float"`, `"bool"`), a list of allowed literals, or a custom callable taking
`(index, switch-alias-or-None, raw-value-or-None)` and returning a parsed
value or raising a `CommandLineError`. -/
inductive ValueSpec where
  | str
  | int
  | float
  | bool
  | enum (vals : List String)
  | custom (f : Nat → Option String → Option String → Except Err Value)

/-- The part of an argument definition dict that `parse_arg` reads
(lines 179-180): its `"name"` and `"parser"` entries. -/
structure ArgDef where
  name : String
  parser : ValueSpec

/-- A positional definition dict as built by `Command.positional`
(lines 22-29). -/
structure PosInfo where
  name : String
  description : String
  parser : ValueSpec
  optional : Bool

/-- A switch definition dict as built by `Command.switch` (lines 41-50); the
`default` field is present only when the keyword argument was supplied. -/
structure SwitchInfo where
  name : String
  switches : List String
  description : String
  parser : ValueSpec
  optional : Bool
  default : Option Value

def PosInfo.toArgDef (p : PosInfo) : ArgDef := ⟨p.name, p.parser⟩

def SwitchInfo.toArgDef (s : SwitchInfo) : ArgDef := ⟨s.name, s.parser⟩

/-- `parse_arg(i, arg, val, argdef)` (lines 178-213).  The source first raises
`ValueNotProvided` when the spec is not `"bool"` and `val is None` (line 182),
then dispatches on the spec; here the `val is None` test is matched first, so
the `none` branch covers line 182 plus the `val == None` half of the bool case
(line 198), and the `some` branch covers the per-spec dispatch verbatim. -/
def parse_arg (i : Nat) (arg : Option String) (val : Option String) (d : ArgDef) :
    Except Err Dict :=
  match val with
  | none =>
    match d.parser with
    | .bool => .ok [(d.name, Value.bool true)]
    | _ => .error (.ValueNotProvided i)
  | some v =>
    match d.parser with
    | .str => .ok [(d.name, Value.str v)]
    | .int =>
      match pyInt? v with
      | some n => .ok [(d.name, Value.int n)]
      | none => .error (.InvalidOption i "int" v)
    | .float =>
      if isPyFloat v then .ok [(d.name, Value.float v)]
      else .error (.InvalidOption i "float" v)
    | .bool =>
      let lv := v.data.map lowerChar
      if lv = "1".data ∨ lv = "true".data then .ok [(d.name, Value.bool true)]
      else if lv = "0".data ∨ lv = "false".data then .ok [(d.name, Value.bool false)]
      else .error (.InvalidOption i "bool switch" v)
    | .enum vals =>
      if v ∈ vals then .ok [(d.name, Value.str v)]
      else .error (.InvalidOption i (joinSlash vals) v)
    | .custom f =>
      match f i arg (some v) with
      | .ok pv => .ok [(d.name, pv)]
      | .error e => .error e

/-! ### The Command schema tree and its builder methods -/

/-- A `Command` schema node (lines 10-17): description, ordered positional
definitions, the builder flag set by `optional_positionals`, the alias-to-def
switch mapping, the name-to-child subcommand mapping, and the flag set by
`optional_subcommands`.  The two mappings are Python dicts, modelled as
insertion-ordered association lists. -/
inductive Command where
  | mk (description : String)
       (positionals : List PosInfo)
       (upcoming_positionals_optional : Bool)
       (switches : List (String × SwitchInfo))
       (subcommands : List (String × Command))
       (subcommands_optional : Bool)

def Command.description : Command → String
  | .mk d _ _ _ _ _ => d

def Command.positionals : Command → List PosInfo
  | .mk _ ps _ _ _ _ => ps

def Command.upcoming_positionals_optional : Command → Bool
  | .mk _ _ b _ _ _ => b

def Command.switches : Command → List (String × SwitchInfo)
  | .mk _ _ _ sws _ _ => sws

def Command.subcommands : Command → List (String × Command)
  | .mk _ _ _ _ subs _ => subs

def Command.subcommands_optional : Command → Bool
  | .mk _ _ _ _ _ b => b

/-- Builder methods mutate `self` and return either `self` or Python `None`.
Mutation is modelled as state passing: each method returns the updated node
paired with the value the Python method returns (`some` updated node for
`return self`, `none` for no return statement).  `positional` and `switch`
assert `name != "command"`; an assertion failure is the outer `none`. -/
def Command.positional (c : Command) (name description : String)
    (parser : ValueSpec) : Option (Command × Option Command) :=
  match c with
  | .mk d ps upo sws subs subo =>
    if name = "command" then none
    else
      let c' := Command.mk d (ps ++ [⟨name, description, parser, upo⟩]) upo sws subs subo
      some (c', some c')

/-- `optional_positionals` (lines 32-33): sets the builder flag; no return
statement, so the call evaluates to Python `None`. -/
def Command.optional_positionals (c : Command) : Command × Option Command :=
  match c with
  | .mk d ps _ sws subs subo => (Command.mk d ps true sws subs subo, none)

/-- `optional_subcommands` (lines 35-36): sets the flag; no return statement. -/
def Command.optional_subcommands (c : Command) : Command × Option Command :=
  match c with
  | .mk d ps upo sws subs _ => (Command.mk d ps upo sws subs true, none)

/-- `switch` (lines 38-54): builds one `SwitchInfo` and registers it under
every alias in `switches`, then returns `self`. -/
def Command.switch (c : Command) (switches : List String) (name description : String)
    (parser : ValueSpec) (optional : Bool) (default : Option Value) :
    Option (Command × Option Command) :=
  match c with
  | .mk d ps upo sws subs subo =>
    if name = "command" then none
    else
      let info : SwitchInfo := ⟨name, switches, description, parser, optional, default⟩
      let sws' := switches.foldl (fun m sw => ainsert m sw info) sws
      let c' := Command.mk d ps upo sws' subs subo
      some (c', some c')

/-- `subcommand` (lines 56-58): attaches a child node and returns `self`. -/
def Command.subcommand (c : Command) (name : String) (cmd : Command) :
    Command × Option Command :=
  match c with
  | .mk d ps upo sws subs subo =>
    let c' := Command.mk d ps upo sws (ainsert subs name cmd) subo
    (c', some c')

/-! ### Termination helpers -/

theorem alookup_sizeOf_lt {α : Type} [SizeOf α] :
    ∀ (l : List (String × α)) (k : String) (v : α),
      alookup l k = some v → sizeOf v < sizeOf l := by
  intro l
  induction l with
  | nil => intro k v h; simp [alookup] at h
  | cons hd tl ih =>
    intro k v h
    obtain ⟨k', v'⟩ := hd
    simp only [alookup] at h
    by_cases hk : k' = k
    · simp [hk] at h
      subst h
      simp only [List.cons.sizeOf_spec, Prod.mk.sizeOf_spec]
      omega
    · simp [hk] at h
      have := ih k v h
      simp only [List.cons.sizeOf_spec]
      omega

theorem subcommands_sizeOf_lt (cmd : Command) :
    sizeOf (Command.subcommands cmd) < sizeOf cmd := by
  cases cmd with
  | mk d ps upo sws subs subo =>
    simp only [Command.subcommands, Command.mk.sizeOf_spec]
    omega

/-! ### End-of-stream validation (lines 103-124 of `_parse`) -/

/-- Lines 103-105: the first required positional whose name is absent from the
result raises `MissingOption(name)`. -/
def checkPositionals : List PosInfo → Dict → Option Err
  | [], _ => none
  | p :: rest, out =>
    if ¬p.optional ∧ (alookup out p.name).isNone then some (.MissingOption p.name)
    else checkPositionals rest out

/-- Lines 107-114: walk `self.switches.values()` in order; for each required
absent switch, fill its default into the result, or raise
`MissingOption("name (alias1, alias2, ...)")` when it has none. -/
def fillDefaults : List SwitchInfo → Dict → Except Err Dict
  | [], out => .ok out
  | sw :: rest, out =>
    if ¬sw.optional ∧ (alookup out sw.name).isNone then
      match sw.default with
      | some d => fillDefaults rest (ainsert out sw.name d)
      | none => .error (.MissingOption (sw.name ++ " (" ++ joinComma sw.switches ++ ")"))
    else fillDefaults rest out

/-- Lines 116-122: with at least one subcommand declared, subcommands not
optional and no `"command"` key in the result, raise
`MissingOption("command (name1, name2, ...)")`. -/
def checkSubcommands (subs : List (String × Command)) (subo : Bool) (out : Dict) :
    Option Err :=
  if subs.length > 0 ∧ subo = false ∧ (alookup out "command").isNone then
    some (.MissingOption ("command (" ++ joinComma (subs.map Prod.fst) ++ ")"))
  else none

/-- The whole end-of-stream validation of `_parse` (lines 103-124): positional
check, then default filling over the switch values, then the subcommand check,
returning the final result dict. -/
def finalize (cmd : Command) (out : Dict) : Except Err Dict :=
  match checkPositionals (Command.positionals cmd) out with
  | some e => .error e
  | none =>
    match fillDefaults ((Command.switches cmd).map Prod.snd) out with
    | .error e => .error e
    | .ok out2 =>
      match checkSubcommands (Command.subcommands cmd) (Command.subcommands_optional cmd) out2 with
      | some e => .error e
      | none => .ok out2

/-! ### The parser (lines 60-124)

`parseFrom cmd argv i rest out pidx` is the token loop of `Command._parse`
(lines 79-101) together with its end-of-stream validation: `argv` is the full
`sys.argv` list, `i` the index of the next token, `rest` the remaining tokens
(`argv.drop i`), `out` the accumulated result and `pidx` the positional
cursor.  `Command.parse` is `parse` (lines 60-74) restricted to its
control-flow content: the `--help` / no-argument usage exit, the call to
`_parse` starting after the binary name, and the catch-render-exit of
`CommandLineError`s.

Line 94 of the source invokes a subcommand as
`self.subcommands[arg].parse(argv_iter)`.  `parse`'s parameter there is
`binary`, and its first statement rebinds `argv_iter = enumerate(sys.argv)`,
so the child receives a fresh enumeration of the whole of `sys.argv` (its
index 0 entry consumed as the binary name), not the parent's cursor; the
passed-in iterator is only ever used as the `next(...)` default when
`sys.argv` is empty, which cannot happen at this call site.  The child call
is therefore modelled by inlining `parse`'s body at the recursion site: the
usage check against the same `argv`, a fresh loop from index 1, and
`SystemExit` (an `ExitKind`) on any child `CommandLineError`. -/
mutual

def parseFrom (cmd : Command) (argv : List String) (i : Nat) (rest : List String)
    (out : Dict) (pidx : Nat) : Except Fail Dict :=
  match rest with
  | [] =>
    match finalize cmd out with
    | .ok d => .ok d
    | .error e => .error (.err e)
  | tok :: rest2 =>
    if startsDash tok then
      match splitEq tok with
      | (sw, val) =>
        match alookup (Command.switches cmd) sw with
        | some info =>
          match parse_arg i (some sw) val (SwitchInfo.toArgDef info) with
          | .ok d => parseFrom cmd argv (i+1) rest2 (dmerge out d) pidx
          | .error e => .error (.err e)
        | none => .error (.err (.UnknownSwitch i sw))
    else
      match hsub : alookup (Command.subcommands cmd) tok with
      | some child =>
        match Command.parse child argv with
        | .ok d => parseFrom cmd argv (i+1) rest2 (dmerge out (subEntry tok d)) pidx
        | .error k => .error (.exit k)
      | none =>
        match (Command.positionals cmd).get? pidx with
        | none => .error (.err (.TooManyPositionals i tok))
        | some p =>
          match parse_arg i none (some tok) (PosInfo.toArgDef p) with
          | .ok d => parseFrom cmd argv (i+1) rest2 (dmerge out d) (pidx+1)
          | .error e => .error (.err e)
termination_by (sizeOf cmd, rest.length)
decreasing_by
  · apply Prod.Lex.right
    simp
  · apply Prod.Lex.left
    have h1 := alookup_sizeOf_lt (Command.subcommands cmd) tok child hsub
    have h2 := subcommands_sizeOf_lt cmd
    omega
  · apply Prod.Lex.right
    simp
  · apply Prod.Lex.right
    simp

def Command.parse (cmd : Command) (argv : List String) : Except ExitKind Dict :=
  if argv.length ≤ 1 ∨ argv.contains "--help" then .error .usage
  else
    match parseFrom cmd argv 1 (argv.drop 1) [] 0 with
    | .ok d => .ok d
    | .error (.err e) => .error (.errored e)
    | .error (.exit k) => .error k
termination_by (sizeOf cmd + 1, 0)
decreasing_by
  apply Prod.Lex.left
  omega

end

/-- `Command._parse(argv_iter)` itself: the token loop starting with an empty
result at cursor position `start` into `argv`. -/
def Command._parse (cmd : Command) (argv : List String) (start : Nat) :
    Except Fail Dict :=
  parseFrom cmd argv start (argv.drop start) [] 0

/-! ### Fuel-indexed evaluator

`parseFrom` above is defined by well-founded recursion, which the kernel does
not reduce on closed terms.  `goLoop`/`parseNodeF` are the same algorithm with
the subcommand recursion abstracted into a parameter and tied by a fuel count
of the recursion depth; they are structurally recursive, so closed calls
evaluate by `rfl`, and `parseNodeF_eq` below proves them equal to the
well-founded definitions whenever the fuel covers the schema size. -/

/-- The token loop of `_parse`, with the recursive subcommand invocation
supplied as `recur` (returning `none` when the fuel below runs out). -/
def goLoop (recur : Command → List String → Option (Except ExitKind Dict))
    (cmd : Command) (argv : List String) :
    Nat → List String → Dict → Nat → Option (Except Fail Dict)
  | _, [], out, _ =>
    some (match finalize cmd out with
          | .ok d => .ok d
          | .error e => .error (.err e))
  | i, tok :: rest2, out, pidx =>
    if startsDash tok then
      match splitEq tok with
      | (sw, val) =>
        match alookup (Command.switches cmd) sw with
        | some info =>
          match parse_arg i (some sw) val (SwitchInfo.toArgDef info) with
          | .ok d => goLoop recur cmd argv (i+1) rest2 (dmerge out d) pidx
          | .error e => some (.error (.err e))
        | none => some (.error (.err (.UnknownSwitch i sw)))
    else
      match alookup (Command.subcommands cmd) tok with
      | some child =>
        match recur child argv with
        | none => none
        | some (.ok d) => goLoop recur cmd argv (i+1) rest2 (dmerge out (subEntry tok d)) pidx
        | some (.error k) => some (.error (.exit k))
      | none =>
        match (Command.positionals cmd).get? pidx with
        | none => some (.error (.err (.TooManyPositionals i tok)))
        | some p =>
          match parse_arg i none (some tok) (PosInfo.toArgDef p) with
          | .ok d => goLoop recur cmd argv (i+1) rest2 (dmerge out d) (pidx+1)
          | .error e => some (.error (.err e))

/-- `Command.parse` with the subcommand-recursion depth bounded by a fuel
count; `none` means the fuel ran out before the recursion bottomed out. -/
def parseNodeF : Nat → Command → List String → Option (Except ExitKind Dict) :=
  Nat.rec (motive := fun _ => Command → List String → Option (Except ExitKind Dict))
    (fun _ _ => none)
    (fun _ recur cmd argv =>
      if argv.length ≤ 1 ∨ argv.contains "--help" then some (.error .usage)
      else
        match goLoop recur cmd argv 1 (argv.drop 1) [] 0 with
        | none => none
        | some (.ok d) => some (.ok d)
        | some (.error (.err e)) => some (.error (.errored e))
        | some (.error (.exit k)) => some (.error k))

theorem parseNodeF_zero (cmd : Command) (argv : List String) :
    parseNodeF 0 cmd argv = none := rfl

theorem parseNodeF_succ (fuel : Nat) (cmd : Command) (argv : List String) :
    parseNodeF (fuel+1) cmd argv =
      (if argv.length ≤ 1 ∨ argv.contains "--help" then some (.error .usage)
       else
         match goLoop (parseNodeF fuel) cmd argv 1 (argv.drop 1) [] 0 with
         | none => none
         | some (.ok d) => some (.ok d)
         | some (.error (.err e)) => some (.error (.errored e))
         | some (.error (.exit k)) => some (.error k)) := rfl

/-- With a recursion oracle that answers every subcommand of `cmd` exactly as
`Command.parse` does, the fuel loop coincides with the well-founded loop. -/
theorem goLoop_eq (recur : Command → List String → Option (Except ExitKind Dict))
    (cmd : Command) (argv : List String)
    (hrec : ∀ k child, alookup (Command.subcommands cmd) k = some child →
      recur child argv = some (Command.parse child argv)) :
    ∀ (rest : List String) (i : Nat) (out : Dict) (pidx : Nat),
      goLoop recur cmd argv i rest out pidx = some (parseFrom cmd argv i rest out pidx) := by
  intro rest
  induction rest with
  | nil =>
    intro i out pidx
    rw [parseFrom]
    simp only [goLoop]
  | cons tok rest2 ih =>
    intro i out pidx
    rw [parseFrom]
    simp only [goLoop]
    rcases hsp : splitEq tok with ⟨sw, val⟩
    by_cases hd : startsDash tok
    · simp only [hd, if_true, hsp]
      cases halk : alookup (Command.switches cmd) sw with
      | none => simp
      | some info =>
        try dsimp only
        cases hpa : parse_arg i (some sw) val (SwitchInfo.toArgDef info) with
        | ok d =>
          try dsimp only
          exact ih (i+1) (dmerge out d) pidx
        | error e => try dsimp only
    · simp only [hd, if_false, Bool.false_eq_true]
      cases hsub2 : alookup (Command.subcommands cmd) tok with
      | none =>
        simp only [hsub2]
        try try dsimp only
        cases hget : (Command.positionals cmd).get? pidx with
        | none => simp
        | some p =>
          try dsimp only
          cases hpa : parse_arg i none (some tok) (PosInfo.toArgDef p) with
          | ok d =>
            try dsimp only
            exact ih (i+1) (dmerge out d) (pidx+1)
          | error e => try dsimp only
      | some child =>
        try dsimp only
        rw [hrec tok child hsub2]
        cases hcp : Command.parse child argv with
        | ok d =>
          try dsimp only
          exact ih (i+1) (dmerge out (subEntry tok d)) pidx
        | error k => try dsimp only

/-- Results are preserved when the recursion oracle is refined. -/
theorem goLoop_mono (recur recur' : Command → List String → Option (Except ExitKind Dict))
    (cmd : Command) (argv : List String)
    (hmono : ∀ c a r, recur c a = some r → recur' c a = some r) :
    ∀ (rest : List String) (i : Nat) (out : Dict) (pidx : Nat) (r : Except Fail Dict),
      goLoop recur cmd argv i rest out pidx = some r →
      goLoop recur' cmd argv i rest out pidx = some r := by
  intro rest
  induction rest with
  | nil => intro i out pidx r h; simpa [goLoop] using h
  | cons tok rest2 ih =>
    intro i out pidx r h
    simp only [goLoop] at h ⊢
    rcases hsp : splitEq tok with ⟨sw, val⟩
    try rw [hsp] at h
    try dsimp only at h ⊢
    by_cases hd : startsDash tok
    · simp only [hd, if_true] at h ⊢
      cases halk : alookup (Command.switches cmd) sw with
      | none =>
        try rw [halk] at h
        try dsimp only at h ⊢
        exact h
      | some info =>
        try rw [halk] at h
        try dsimp only at h ⊢
        cases hpa : parse_arg i (some sw) val (SwitchInfo.toArgDef info) with
        | ok d =>
          try rw [hpa] at h
          try dsimp only at h ⊢
          exact ih (i+1) (dmerge out d) pidx r h
        | error e =>
          try rw [hpa] at h
          try dsimp only at h ⊢
          exact h
    · simp only [hd, if_false, Bool.false_eq_true] at h ⊢
      cases hsub2 : alookup (Command.subcommands cmd) tok with
      | none =>
        try rw [hsub2] at h
        try dsimp only at h ⊢
        cases hget : (Command.positionals cmd).get? pidx with
        | none =>
          try rw [hget] at h
          try dsimp only at h ⊢
          exact h
        | some p =>
          try rw [hget] at h
          try dsimp only at h ⊢
          cases hpa : parse_arg i none (some tok) (PosInfo.toArgDef p) with
          | ok d =>
            try rw [hpa] at h
            try dsimp only at h ⊢
            exact ih (i+1) (dmerge out d) (pidx+1) r h
          | error e =>
            try rw [hpa] at h
            try dsimp only at h ⊢
            exact h
      | some child =>
        try rw [hsub2] at h
        try dsimp only at h ⊢
        cases hrc : recur child argv with
        | none =>
          try rw [hrc] at h
          try dsimp only at h
          exact absurd h (by simp)
        | some res =>
          try rw [hrc] at h
          rw [hmono child argv res hrc]
          cases res with
          | ok d =>
            try dsimp only at h ⊢
            exact ih (i+1) (dmerge out (subEntry tok d)) pidx r h
          | error k =>
            try dsimp only at h ⊢
            exact h

theorem parseNodeF_succ_mono :
    ∀ (fuel : Nat) (cmd : Command) (argv : List String) (r : Except ExitKind Dict),
      parseNodeF fuel cmd argv = some r → parseNodeF (fuel+1) cmd argv = some r := by
  intro fuel
  induction fuel with
  | zero => intro cmd argv r h; rw [parseNodeF_zero] at h; exact absurd h (by simp)
  | succ fuel ih =>
    intro cmd argv r h
    rw [parseNodeF_succ] at h
    rw [parseNodeF_succ]
    by_cases hh : argv.length ≤ 1 ∨ argv.contains "--help"
    · simp only [hh, if_true] at h ⊢
      exact h
    · simp only [hh, if_false] at h ⊢
      cases hg : goLoop (parseNodeF fuel) cmd argv 1 (List.drop 1 argv) [] 0 with
      | none =>
        try rw [hg] at h
        try dsimp only at h
        simp at h
      | some res =>
        try rw [hg] at h
        rw [goLoop_mono (parseNodeF fuel) (parseNodeF (fuel+1)) cmd argv
              (fun c a r' hr' => ih c a r' hr') (List.drop 1 argv) 1 [] 0 res hg]
        rcases res with d | f
        · try dsimp only at h ⊢
          exact h
        · rcases f with e | k
          · try dsimp only at h ⊢
            exact h
          · try dsimp only at h ⊢
            exact h

theorem parseNodeF_le_mono {fuel fuel' : Nat} (hle : fuel ≤ fuel')
    {cmd : Command} {argv : List String} {r : Except ExitKind Dict}
    (h : parseNodeF fuel cmd argv = some r) : parseNodeF fuel' cmd argv = some r := by
  induction hle with
  | refl => exact h
  | step _ ih => exact parseNodeF_succ_mono _ _ _ _ ih

theorem sizeOf_cmd_pos (cmd : Command) : 1 ≤ sizeOf cmd := by
  cases cmd with
  | mk d ps upo sws subs subo => simp only [Command.mk.sizeOf_spec]; omega

/-- Fuel adequacy: any fuel at least the size of the schema makes the fuel
evaluator compute exactly `Command.parse`.  The needed fuel depends only on
the schema, never on the token list. -/
theorem parseNodeF_eq :
    ∀ (fuel : Nat) (cmd : Command) (argv : List String), sizeOf cmd ≤ fuel →
      parseNodeF fuel cmd argv = some (Command.parse cmd argv) := by
  intro fuel
  induction fuel with
  | zero =>
    intro cmd argv h
    exact absurd h (by have := sizeOf_cmd_pos cmd; omega)
  | succ fuel ih =>
    intro cmd argv hle
    rw [parseNodeF_succ, Command.parse]
    by_cases hh : argv.length ≤ 1 ∨ argv.contains "--help"
    · simp only [hh, if_true]
    · simp only [hh, if_false]
      have hrec : ∀ k child, alookup (Command.subcommands cmd) k = some child →
          parseNodeF fuel child argv = some (Command.parse child argv) := by
        intro k child hk
        have h1 := alookup_sizeOf_lt (Command.subcommands cmd) k child hk
        have h2 := subcommands_sizeOf_lt cmd
        exact ih child argv (by omega)
      rw [goLoop_eq (parseNodeF fuel) cmd argv hrec (argv.drop 1) 1 [] 0]
      cases hpf : parseFrom cmd argv 1 (argv.drop 1) [] 0 with
      | ok d => try dsimp only
      | error f =>
        cases f with
        | err e => try dsimp only
        | exit k => try dsimp only

/-- Evaluation bridge: a closed run of the fuel evaluator determines
`Command.parse`. -/
theorem parse_eval (fuel : Nat) (cmd : Command) (argv : List String)
    (r : Except ExitKind Dict) (h : parseNodeF fuel cmd argv = some r) :
    Command.parse cmd argv = r := by
  have h2 := parseNodeF_eq (max fuel (sizeOf cmd)) cmd argv (le_max_right _ _)
  have h3 := parseNodeF_le_mono (le_max_left fuel (sizeOf cmd)) h
  rw [h3] at h2
  exact (Option.some.inj h2).symm

/-! ### Laws of the dict operations -/

theorem alookup_ainsert {α : Type} (l : List (String × α)) (k : String) (v : α) :
    alookup (ainsert l k v) k = some v := by
  induction l with
  | nil => simp [ainsert, alookup]
  | cons hd tl ih =>
    obtain ⟨k', v'⟩ := hd
    by_cases hk : k' = k
    · simp [ainsert, alookup, hk]
    · simp [ainsert, alookup, hk, ih]

theorem alookup_ainsert_ne {α : Type} (l : List (String × α)) (k k' : String) (v : α)
    (hne : k' ≠ k) : alookup (ainsert l k v) k' = alookup l k' := by
  induction l with
  | nil =>
    simp only [ainsert, alookup]
    rw [if_neg (fun h => hne h.symm)]
  | cons hd tl ih =>
    obtain ⟨k0, v0⟩ := hd
    by_cases hk : k0 = k
    · subst hk
      simp only [ainsert, if_pos rfl, alookup]
      rw [if_neg (fun h => hne h.symm), if_neg (fun h => hne h.symm)]
    · simp only [ainsert, hk, if_false]
      by_cases hk' : k0 = k'
      · simp [alookup, hk']
      · simp [alookup, hk', ih]

theorem dmerge_single (out : Dict) (k : String) (v : Value) :
    dmerge out [(k, v)] = ainsert out k v := rfl

theorem ainsert_self {α : Type} (l : List (String × α)) (k : String) (v : α)
    (h : alookup l k = some v) : ainsert l k v = l := by
  induction l with
  | nil => simp [alookup] at h
  | cons hd tl ih =>
    obtain ⟨k', v'⟩ := hd
    by_cases hk : k' = k
    · subst hk
      simp only [alookup, if_pos rfl] at h
      obtain rfl := Option.some.inj h
      simp [ainsert]
    · simp only [alookup, hk, if_false] at h
      simp [ainsert, hk, ih h]

/-! ### Example schemas

`exampleCmd` is the schema of the worked example of the specification: one
required string positional `name`, an integer switch `--count` defaulting to 5
(required flag unset but default present, so an omitted `--count` is filled
in), and a subcommand `run` with no arguments; subcommands are optional so
that plain invocations succeed. -/

def runCmd : Command := Command.mk "run it" [] false [] [] false

def countSwitch : SwitchInfo :=
  ⟨"count", ["--count"], "how many", ValueSpec.int, false, some (Value.int 5)⟩

def exampleCmd : Command :=
  Command.mk "example"
    [⟨"name", "who to greet", ValueSpec.str, false⟩] false
    [("--count", countSwitch)]
    [("run", runCmd)] true

/-- The definition of a required integer switch `x` aliased to `--x`. -/
def xSwitch : SwitchInfo := ⟨"x", ["--x"], "an int", ValueSpec.int, false, none⟩

/-- A schema with the single required integer switch `--x`. -/
def xCmd : Command :=
  Command.mk "x example"
    [] false
    [("--x", xSwitch)]
    [] false

/-- The definition of a boolean switch `v` aliased to `-v`. -/
def vSwitch : SwitchInfo := ⟨"v", ["-v"], "verbose", ValueSpec.bool, true, none⟩

/-- A schema with the single optional boolean switch `-v`. -/
def vCmd : Command :=
  Command.mk "v example"
    [] false
    [("-v", vSwitch)]
    [] false

/-! ### Schema threading (frame property)

The Python `_parse` reads `self.description`, `self.positionals`,
`self.switches`, `self.subcommands` and the two optionality flags but never
assigns to them.  To state this as a theorem, `goLoopSt`/`parseNodeFSt`
re-run the parser with the schema threaded through every step like a heap
value: each step passes on the node it read from, and a subcommand call
stores the child's final node back into the parent's `subcommands` slot
(modelling the object aliasing of the Python tree).  `parseNodeFSt_frame`
below proves the threaded run returns the schema it started from, whatever
the tokens and however the parse ends. -/

/-- Replace a node's `subcommands` mapping (the heap write-back slot). -/
def withSubcommands : Command → List (String × Command) → Command
  | .mk d ps upo sws _ subo, subs => .mk d ps upo sws subs subo

/-- The token loop with the schema threaded through every step. -/
def goLoopSt (recurSt : Command → List String → Option (Except ExitKind Dict × Command))
    (argv : List String) :
    Command → Nat → List String → Dict → Nat → Option (Except Fail Dict × Command)
  | cmd, _, [], out, _ =>
    some (match finalize cmd out with
          | .ok d => .ok d
          | .error e => .error (.err e), cmd)
  | cmd, i, tok :: rest2, out, pidx =>
    if startsDash tok then
      match splitEq tok with
      | (sw, val) =>
        match alookup (Command.switches cmd) sw with
        | some info =>
          match parse_arg i (some sw) val (SwitchInfo.toArgDef info) with
          | .ok d => goLoopSt recurSt argv cmd (i+1) rest2 (dmerge out d) pidx
          | .error e => some (.error (.err e), cmd)
        | none => some (.error (.err (.UnknownSwitch i sw)), cmd)
    else
      match alookup (Command.subcommands cmd) tok with
      | some child =>
        match recurSt child argv with
        | none => none
        | some (res, child2) =>
          match res with
          | .ok d =>
            goLoopSt recurSt argv
              (withSubcommands cmd (ainsert (Command.subcommands cmd) tok child2))
              (i+1) rest2 (dmerge out (subEntry tok d)) pidx
          | .error k =>
            some (.error (.exit k),
              withSubcommands cmd (ainsert (Command.subcommands cmd) tok child2))
      | none =>
        match (Command.positionals cmd).get? pidx with
        | none => some (.error (.err (.TooManyPositionals i tok)), cmd)
        | some p =>
          match parse_arg i none (some tok) (PosInfo.toArgDef p) with
          | .ok d => goLoopSt recurSt argv cmd (i+1) rest2 (dmerge out d) (pidx+1)
          | .error e => some (.error (.err e), cmd)

/-- `Command.parse` with the schema threaded, fuel-indexed like `parseNodeF`. -/
def parseNodeFSt : Nat → Command → List String → Option (Except ExitKind Dict × Command) :=
  Nat.rec (motive := fun _ => Command → List String → Option (Except ExitKind Dict × Command))
    (fun _ _ => none)
    (fun _ recurSt cmd argv =>
      if argv.length ≤ 1 ∨ argv.contains "--help" then some (.error .usage, cmd)
      else
        match goLoopSt recurSt argv cmd 1 (argv.drop 1) [] 0 with
        | none => none
        | some (.ok d, cmd2) => some (.ok d, cmd2)
        | some (.error (.err e), cmd2) => some (.error (.errored e), cmd2)
        | some (.error (.exit k), cmd2) => some (.error k, cmd2))

theorem parseNodeFSt_zero (cmd : Command) (argv : List String) :
    parseNodeFSt 0 cmd argv = none := rfl

theorem parseNodeFSt_succ (fuel : Nat) (cmd : Command) (argv : List String) :
    parseNodeFSt (fuel+1) cmd argv =
      (if argv.length ≤ 1 ∨ argv.contains "--help" then some (.error .usage, cmd)
       else
         match goLoopSt (parseNodeFSt fuel) argv cmd 1 (argv.drop 1) [] 0 with
         | none => none
         | some (.ok d, cmd2) => some (.ok d, cmd2)
         | some (.error (.err e), cmd2) => some (.error (.errored e), cmd2)
         | some (.error (.exit k), cmd2) => some (.error k, cmd2)) := rfl

theorem withSubcommands_self (cmd : Command) :
    withSubcommands cmd (Command.subcommands cmd) = cmd := by
  cases cmd with
  | mk d ps upo sws subs subo => rfl

/-- The threaded loop returns the untouched schema beside the plain loop's
result, provided the recursion oracle does the same for the children. -/
theorem goLoopSt_eq (recurSt : Command → List String → Option (Except ExitKind Dict × Command))
    (recur : Command → List String → Option (Except ExitKind Dict))
    (argv : List String)
    (hrec : ∀ c, recurSt c argv = Option.map (fun r => (r, c)) (recur c argv)) :
    ∀ (rest : List String) (cmd : Command) (i : Nat) (out : Dict) (pidx : Nat),
      goLoopSt recurSt argv cmd i rest out pidx =
        Option.map (fun r => (r, cmd)) (goLoop recur cmd argv i rest out pidx) := by
  intro rest
  induction rest with
  | nil =>
    intro cmd i out pidx
    simp only [goLoopSt, goLoop, Option.map]
  | cons tok rest2 ih =>
    intro cmd i out pidx
    simp only [goLoopSt, goLoop]
    rcases hsp : splitEq tok with ⟨sw, val⟩
    try dsimp only
    by_cases hd : startsDash tok
    · simp only [hd, if_true]
      cases halk : alookup (Command.switches cmd) sw with
      | none => simp [Option.map]
      | some info =>
        try dsimp only
        cases hpa : parse_arg i (some sw) val (SwitchInfo.toArgDef info) with
        | ok d =>
          try dsimp only
          exact ih cmd (i+1) (dmerge out d) pidx
        | error e => rfl
    · simp only [hd, if_false, Bool.false_eq_true]
      cases hsub2 : alookup (Command.subcommands cmd) tok with
      | none =>
        try dsimp only
        cases hget : (Command.positionals cmd).get? pidx with
        | none => rfl
        | some p =>
          try dsimp only
          cases hpa : parse_arg i none (some tok) (PosInfo.toArgDef p) with
          | ok d =>
            try dsimp only
            exact ih cmd (i+1) (dmerge out d) (pidx+1)
          | error e => rfl
      | some child =>
        try dsimp only
        rw [hrec child]
        cases hrc : recur child argv with
        | none => rfl
        | some res =>
          simp only [Option.map_some']
          try dsimp only
          rw [ainsert_self (Command.subcommands cmd) tok child hsub2,
              withSubcommands_self cmd]
          cases res with
          | ok d =>
            try dsimp only
            exact ih cmd (i+1) (dmerge out (subEntry tok d)) pidx
          | error k => rfl

/-- The threaded run computes the plain run's result, paired with the very
schema it started from. -/
theorem parseNodeFSt_eq :
    ∀ (fuel : Nat) (cmd : Command) (argv : List String),
      parseNodeFSt fuel cmd argv =
        Option.map (fun r => (r, cmd)) (parseNodeF fuel cmd argv) := by
  intro fuel
  induction fuel with
  | zero => intro cmd argv; rfl
  | succ fuel ih =>
    intro cmd argv
    rw [parseNodeFSt_succ, parseNodeF_succ]
    by_cases hh : argv.length ≤ 1 ∨ argv.contains "--help"
    · simp only [hh, if_true, Option.map_some']
    · simp only [hh, if_false]
      rw [goLoopSt_eq (parseNodeFSt fuel) (parseNodeF fuel) argv
            (fun c => ih c argv) (argv.drop 1) cmd 1 [] 0]
      cases hg : goLoop (parseNodeF fuel) cmd argv 1 (argv.drop 1) [] 0 with
      | none => rfl
      | some res =>
        simp only [Option.map_some']
        cases res with
        | ok d => rfl
        | error f =>
          cases f with
          | err e => rfl
          | exit k => rfl

/-! ### Validation-phase lemmas -/

/-- `checkPositionals` reports only `MissingOption`. -/
theorem checkPositionals_shape (ps : List PosInfo) (out : Dict) :
    checkPositionals ps out = none ∨
      ∃ n, checkPositionals ps out = some (Err.MissingOption n) := by
  induction ps with
  | nil => left; rfl
  | cons p rest ih =>
    by_cases hc : p.optional = false ∧ (alookup out p.name).isNone
    · right
      refine ⟨p.name, ?_⟩
      simp only [checkPositionals]
      rw [if_pos]
      constructor
      · simp [hc.1]
      · exact hc.2
    · simp only [checkPositionals]
      rw [if_neg]
      · exact ih
      · intro hcontra
        exact hc ⟨by simpa using hcontra.1, hcontra.2⟩

/-- A required positional absent from the result makes `checkPositionals`
report a `MissingOption`. -/
theorem checkPositionals_missing (ps : List PosInfo) (out : Dict)
    (h : ∃ p, p ∈ ps ∧ p.optional = false ∧ alookup out p.name = none) :
    ∃ n, checkPositionals ps out = some (Err.MissingOption n) := by
  induction ps with
  | nil => obtain ⟨p, hp, _⟩ := h; simp at hp
  | cons p0 rest ih =>
    by_cases hc : p0.optional = false ∧ (alookup out p0.name).isNone
    · refine ⟨p0.name, ?_⟩
      simp only [checkPositionals]
      rw [if_pos ⟨by simp [hc.1], hc.2⟩]
    · obtain ⟨p, hp, hopt, habs⟩ := h
      have hpr : p ∈ rest := by
        rcases List.mem_cons.mp hp with heq | hmem
        · exfalso
          subst heq
          exact hc ⟨hopt, by simp [habs]⟩
        · exact hmem
      obtain ⟨n, hn⟩ := ih ⟨p, hpr, hopt, habs⟩
      refine ⟨n, ?_⟩
      simp only [checkPositionals]
      rw [if_neg]
      · exact hn
      · intro hcontra
        exact hc ⟨by simpa using hcontra.1, hcontra.2⟩

/-- `fillDefaults` never disturbs a key already present in the result. -/
theorem fillDefaults_preserve (sws : List SwitchInfo) :
    ∀ (out out2 : Dict) (k : String) (v : Value),
      alookup out k = some v → fillDefaults sws out = .ok out2 →
      alookup out2 k = some v := by
  induction sws with
  | nil =>
    intro out out2 k v hk hf
    simp only [fillDefaults] at hf
    exact Except.ok.inj hf ▸ hk
  | cons sw0 rest ih =>
    intro out out2 k v hk hf
    simp only [fillDefaults] at hf
    by_cases hc : sw0.optional = false ∧ (alookup out sw0.name).isNone
    · rw [if_pos ⟨by simp [hc.1], hc.2⟩] at hf
      cases hdef : sw0.default with
      | some d0 =>
        rw [hdef] at hf
        have hne : k ≠ sw0.name := by
          intro heq
          subst heq
          rw [hk] at hc
          simp at hc
        have hk2 : alookup (ainsert out sw0.name d0) k = some v := by
          rw [alookup_ainsert_ne out sw0.name k d0 hne]
          exact hk
        exact ih (ainsert out sw0.name d0) out2 k v hk2 hf
      | none => rw [hdef] at hf; cases hf
    · rw [if_neg (fun hcontra => hc ⟨by simpa using hcontra.1, hcontra.2⟩)] at hf
      exact ih out out2 k v hk hf

/-- A required switch with no default, absent from the result (and with no
same-named definition carrying a default that could mask it), makes
`fillDefaults` fail with a `MissingOption`. -/
theorem fillDefaults_missing (sws : List SwitchInfo) :
    ∀ (out : Dict) (sw : SwitchInfo),
      sw ∈ sws → sw.optional = false → alookup out sw.name = none →
      sw.default = none →
      (∀ sw', sw' ∈ sws → sw'.name = sw.name → sw'.default = none) →
      ∃ n, fillDefaults sws out = .error (Err.MissingOption n) := by
  induction sws with
  | nil => intro out sw hmem; simp at hmem
  | cons sw0 rest ih =>
    intro out sw hmem hopt habs hdef hsame
    by_cases hc : sw0.optional = false ∧ (alookup out sw0.name).isNone
    · cases hdef0 : sw0.default with
      | none =>
        refine ⟨sw0.name ++ " (" ++ joinComma sw0.switches ++ ")", ?_⟩
        simp only [fillDefaults]
        rw [if_pos ⟨by simp [hc.1], hc.2⟩, hdef0]
      | some d0 =>
        have hne : sw0.name ≠ sw.name := by
          intro heq
          have := hsame sw0 (List.mem_cons_self sw0 rest) heq
          rw [this] at hdef0
          cases hdef0
        have hswr : sw ∈ rest := by
          rcases List.mem_cons.mp hmem with heq | hmem2
          · exact absurd (congrArg SwitchInfo.name heq.symm) hne
          · exact hmem2
        have habs2 : alookup (ainsert out sw0.name d0) sw.name = none := by
          rw [alookup_ainsert_ne out sw0.name sw.name d0 (fun h => hne h.symm)]
          exact habs
        obtain ⟨n, hn⟩ := ih (ainsert out sw0.name d0) sw hswr hopt habs2 hdef
          (fun sw' h1 h2 => hsame sw' (List.mem_cons_of_mem sw0 h1) h2)
        refine ⟨n, ?_⟩
        simp only [fillDefaults]
        rw [if_pos ⟨by simp [hc.1], hc.2⟩, hdef0]
        exact hn
    · have hswr : sw ∈ rest := by
        rcases List.mem_cons.mp hmem with heq | hmem2
        · exfalso
          subst heq
          exact hc ⟨hopt, by simp [habs]⟩
        · exact hmem2
      obtain ⟨n, hn⟩ := ih out sw hswr hopt habs hdef
        (fun sw' h1 h2 => hsame sw' (List.mem_cons_of_mem sw0 h1) h2)
      refine ⟨n, ?_⟩
      simp only [fillDefaults]
      rw [if_neg (fun hcontra => hc ⟨by simpa using hcontra.1, hcontra.2⟩)]
      exact hn

/-- A required switch with a default, absent from the result (all same-named
definitions sharing that default), ends up bound to the default whenever
`fillDefaults` succeeds. -/
theorem fillDefaults_fills (sws : List SwitchInfo) :
    ∀ (out out2 : Dict) (sw : SwitchInfo) (dv : Value),
      sw ∈ sws → sw.optional = false → alookup out sw.name = none →
      sw.default = some dv →
      (∀ sw', sw' ∈ sws → sw'.name = sw.name → sw'.default = some dv) →
      fillDefaults sws out = .ok out2 →
      alookup out2 sw.name = some dv := by
  induction sws with
  | nil => intro out out2 sw dv hmem; simp at hmem
  | cons sw0 rest ih =>
    intro out out2 sw dv hmem hopt habs hdef hsame hf
    simp only [fillDefaults] at hf
    by_cases hc : sw0.optional = false ∧ (alookup out sw0.name).isNone
    · rw [if_pos ⟨by simp [hc.1], hc.2⟩] at hf
      cases hdef0 : sw0.default with
      | none => rw [hdef0] at hf; cases hf
      | some d0 =>
        rw [hdef0] at hf
        by_cases hname : sw0.name = sw.name
        · have hd0v : d0 = dv := by
            have h1 := hsame sw0 (List.mem_cons_self sw0 rest) hname
            rw [hdef0] at h1
            exact Option.some.inj h1
          subst hd0v
          have hk2 : alookup (ainsert out sw0.name d0) sw.name = some d0 := by
            rw [hname]
            exact alookup_ainsert out sw.name d0
          exact fillDefaults_preserve rest (ainsert out sw0.name d0) out2 sw.name d0 hk2 hf
        · have hswr : sw ∈ rest := by
            rcases List.mem_cons.mp hmem with heq | hmem2
            · exact absurd (congrArg SwitchInfo.name heq.symm) hname
            · exact hmem2
          have habs2 : alookup (ainsert out sw0.name d0) sw.name = none := by
            rw [alookup_ainsert_ne out sw0.name sw.name d0 (fun h => hname h.symm)]
            exact habs
          exact ih (ainsert out sw0.name d0) out2 sw dv hswr hopt habs2 hdef
            (fun sw' h1 h2 => hsame sw' (List.mem_cons_of_mem sw0 h1) h2) hf
    · rw [if_neg (fun hcontra => hc ⟨by simpa using hcontra.1, hcontra.2⟩)] at hf
      have hswr : sw ∈ rest := by
        rcases List.mem_cons.mp hmem with heq | hmem2
        · exfalso
          subst heq
          exact hc ⟨hopt, by simp [habs]⟩
        · exact hmem2
      exact ih out out2 sw dv hswr hopt habs hdef
        (fun sw' h1 h2 => hsame sw' (List.mem_cons_of_mem sw0 h1) h2) hf

/-- `finalize` reports a `MissingOption` when a required positional is absent
from the accumulated result. -/
theorem finalize_missing_positional (cmd : Command) (out : Dict)
    (h : ∃ p, p ∈ Command.positionals cmd ∧ p.optional = false ∧
      alookup out p.name = none) :
    ∃ n, finalize cmd out = .error (Err.MissingOption n) := by
  obtain ⟨n, hn⟩ := checkPositionals_missing (Command.positionals cmd) out h
  refine ⟨n, ?_⟩
  simp only [finalize]
  rw [hn]

/-- `finalize` reports a `MissingOption` when a required, defaultless switch
definition is absent from the accumulated result (no same-named definition
carrying a default). -/
theorem finalize_missing_switch (cmd : Command) (out : Dict) (sw : SwitchInfo)
    (hmem : sw ∈ (Command.switches cmd).map Prod.snd)
    (hopt : sw.optional = false) (habs : alookup out sw.name = none)
    (hdef : sw.default = none)
    (hsame : ∀ sw', sw' ∈ (Command.switches cmd).map Prod.snd →
      sw'.name = sw.name → sw'.default = none) :
    ∃ n, finalize cmd out = .error (Err.MissingOption n) := by
  rcases checkPositionals_shape (Command.positionals cmd) out with hcp | ⟨n, hn⟩
  · obtain ⟨n, hn⟩ := fillDefaults_missing ((Command.switches cmd).map Prod.snd) out sw
      hmem hopt habs hdef hsame
    refine ⟨n, ?_⟩
    simp only [finalize]
    rw [hcp]
    rw [hn]
  · refine ⟨n, ?_⟩
    simp only [finalize]
    rw [hn]

/-- When `finalize` succeeds, a required switch with a default that was absent
from the accumulated result is bound to its default in the returned result. -/
theorem finalize_fills (cmd : Command) (out out2 : Dict) (sw : SwitchInfo) (dv : Value)
    (hmem : sw ∈ (Command.switches cmd).map Prod.snd)
    (hopt : sw.optional = false) (habs : alookup out sw.name = none)
    (hdef : sw.default = some dv)
    (hsame : ∀ sw', sw' ∈ (Command.switches cmd).map Prod.snd →
      sw'.name = sw.name → sw'.default = some dv)
    (hf : finalize cmd out = .ok out2) :
    alookup out2 sw.name = some dv := by
  simp only [finalize] at hf
  cases hcp : checkPositionals (Command.positionals cmd) out with
  | some e =>
    rw [hcp] at hf
    cases hf
  | none =>
    rw [hcp] at hf
    try dsimp only at hf
    cases hfd : fillDefaults ((Command.switches cmd).map Prod.snd) out with
    | error e =>
      rw [hfd] at hf
      cases hf
    | ok out3 =>
      rw [hfd] at hf
      try dsimp only at hf
      cases hcs : checkSubcommands (Command.subcommands cmd)
          (Command.subcommands_optional cmd) out3 with
      | some e =>
        rw [hcs] at hf
        cases hf
      | none =>
        rw [hcs] at hf
        try dsimp only at hf
        obtain rfl := Except.ok.inj hf
        exact fillDefaults_fills ((Command.switches cmd).map Prod.snd) out out3 sw dv
          hmem hopt habs hdef hsame hfd

/-- Evaluation bridge for `parseFrom` at schemas whose loop run never consults
a subcommand (or consults it through the exact `Command.parse` oracle). -/
theorem parseFrom_eval (cmd : Command) (argv : List String) (i : Nat)
    (rest : List String) (out : Dict) (pidx : Nat) (r : Except Fail Dict)
    (h : goLoop (fun c a => some (Command.parse c a)) cmd argv i rest out pidx = some r) :
    parseFrom cmd argv i rest out pidx = r := by
  have h2 := goLoop_eq (fun c a => some (Command.parse c a)) cmd argv
    (fun k child hk => rfl) rest i out pidx
  rw [h] at h2
  exact (Option.some.inj h2).symm

/-! ### The claims -/

/-- C1.  The specification states that a subcommand token makes `_parse`
recurse on the child with the shared cursor, so that for the worked-example
schema, parsing `["alice", "run"]` yields
`{name: "alice", count: 5, command: "run", run: {}}`.  The code instead calls
`self.subcommands[arg].parse(argv_iter)` (line 94): the iterator lands in
`parse`'s `binary` parameter and the child re-enumerates the whole of
`sys.argv` from its start.  On `sys.argv = ["script.py", "alice", "run"]`, the
child `run` (which accepts no arguments) therefore re-reads `"alice"` at
index 1, raises `TooManyPositionals(1, "alice")` and exits the process, as
this evaluation of the model shows — both at the top level and inside the
child's own `_parse` frame. -/
theorem claim1_subcommand_shared_cursor_bug :
    Command.parse exampleCmd ["script.py", "alice", "run"] =
      .error (.errored (.TooManyPositionals 1 "alice")) ∧
    Command._parse runCmd ["script.py", "alice", "run"] 1 =
      .error (.err (.TooManyPositionals 1 "alice")) := by
  constructor
  · exact parse_eval 3 exampleCmd ["script.py", "alice", "run"] _ rfl
  · exact parseFrom_eval runCmd ["script.py", "alice", "run"] 1 ["alice", "run"] [] 0 _ rfl

/-- C2, counterexample.  `optional_positionals` (and `optional_subcommands`)
have no return statement: called on a concrete node, the returned value is
Python `None`, not the node, refuting "every schema-builder method returns
the Command node it was called on". -/
theorem claim2_counterexample :
    (Command.optional_positionals runCmd).2 = none ∧
    (Command.optional_subcommands runCmd).2 = none :=
  ⟨rfl, rfl⟩

/-- C2, amended.  `positional`, `switch` (given a name other than the
reserved `"command"`) and `subcommand` return the node itself, enabling
fluent chaining; `optional_positionals` and `optional_subcommands` set their
flag and return `None`. -/
theorem claim2_builders_amended :
    ∀ (c : Command) (nm ds : String) (p : ValueSpec) (als : List String)
      (opt : Bool) (dv : Option Value) (child : Command),
      (nm ≠ "command" → ∃ c', Command.positional c nm ds p = some (c', some c')) ∧
      (nm ≠ "command" → ∃ c', Command.switch c als nm ds p opt dv = some (c', some c')) ∧
      (Command.subcommand c nm child).2 = some (Command.subcommand c nm child).1 ∧
      (Command.optional_positionals c).2 = none ∧
      (Command.optional_subcommands c).2 = none := by
  intro c nm ds p als opt dv child
  refine ⟨?_, ?_, ?_, ?_, ?_⟩
  · intro h
    cases c with
    | mk d ps upo sws subs subo =>
      refine ⟨Command.mk d (ps ++ [⟨nm, ds, p, upo⟩]) upo sws subs subo, ?_⟩
      simp [Command.positional, h]
  · intro h
    cases c with
    | mk d ps upo sws subs subo =>
      refine ⟨Command.mk d ps upo
        (als.foldl (fun m sw => ainsert m sw ⟨nm, als, ds, p, opt, dv⟩) sws) subs subo, ?_⟩
      simp [Command.switch, h]
  · cases c with
    | mk d ps upo sws subs subo => rfl
  · cases c with
    | mk d ps upo sws subs subo => rfl
  · cases c with
    | mk d ps upo sws subs subo => rfl

theorem claim2_witness :
    (∃ c', Command.positional runCmd "name" "who" ValueSpec.str = some (c', some c')) ∧
    (Command.optional_positionals runCmd).2 = none :=
  ⟨(claim2_builders_amended runCmd "name" "who" ValueSpec.str [] false none runCmd).1
      (by decide),
   (claim2_builders_amended runCmd "name" "who" ValueSpec.str [] false none
      runCmd).2.2.2.1⟩

/-- C3.  Result accumulation is a right-biased merge: merging the singleton
dict produced for a token binds its key to the new value and leaves every
other key unchanged, so the later of two tokens writing one key wins; in
particular parsing `["--x=1", "--x=2"]` against the integer switch `x`
yields `x = 2`. -/
theorem claim3_right_biased_merge :
    (∀ (out : Dict) (k : String) (v : Value), alookup (dmerge out [(k, v)]) k = some v) ∧
    (∀ (out : Dict) (k k' : String) (v : Value), k' ≠ k →
      alookup (dmerge out [(k, v)]) k' = alookup out k') ∧
    Command.parse xCmd ["script.py", "--x=1", "--x=2"] = .ok [("x", Value.int 2)] := by
  refine ⟨?_, ?_, ?_⟩
  · intro out k v
    rw [dmerge_single]
    exact alookup_ainsert out k v
  · intro out k k' v hne
    rw [dmerge_single]
    exact alookup_ainsert_ne out k k' v hne
  · exact parse_eval 2 xCmd ["script.py", "--x=1", "--x=2"] _ rfl

theorem claim3_witness :
    alookup (dmerge [("x", Value.int 1)] [("y", Value.int 7)]) "x" = some (Value.int 1) ∧
    alookup (dmerge [("x", Value.int 1)] [("x", Value.int 2)]) "x" = some (Value.int 2) :=
  ⟨claim3_right_biased_merge.2.1 [("x", Value.int 1)] "y" "x" (Value.int 7) (by decide),
   claim3_right_biased_merge.1 [("x", Value.int 1)] "x" (Value.int 2)⟩

/-- C4.  End-of-stream validation: a required positional absent from the
result, or a required defaultless switch absent from the result, makes the
validation fail with a `MissingOption`; a required switch with a default that
is absent is bound to its default in the returned result (same-named switch
definitions are assumed consistent, as the data model takes names to be
unique per node); and on the worked-example schema, omitting `--count`
yields `count = 5`. -/
theorem claim4_end_validation :
    (∀ (cmd : Command) (out : Dict),
      (∃ p, p ∈ Command.positionals cmd ∧ p.optional = false ∧
        alookup out p.name = none) →
      ∃ n, finalize cmd out = .error (Err.MissingOption n)) ∧
    (∀ (cmd : Command) (out : Dict) (sw : SwitchInfo),
      sw ∈ (Command.switches cmd).map Prod.snd → sw.optional = false →
      alookup out sw.name = none → sw.default = none →
      (∀ sw', sw' ∈ (Command.switches cmd).map Prod.snd → sw'.name = sw.name →
        sw'.default = none) →
      ∃ n, finalize cmd out = .error (Err.MissingOption n)) ∧
    (∀ (cmd : Command) (out out2 : Dict) (sw : SwitchInfo) (dv : Value),
      sw ∈ (Command.switches cmd).map Prod.snd → sw.optional = false →
      alookup out sw.name = none → sw.default = some dv →
      (∀ sw', sw' ∈ (Command.switches cmd).map Prod.snd → sw'.name = sw.name →
        sw'.default = some dv) →
      finalize cmd out = .ok out2 →
      alookup out2 sw.name = some dv) ∧
    Command.parse exampleCmd ["script.py", "alice"] =
      .ok [("name", Value.str "alice"), ("count", Value.int 5)] := by
  refine ⟨finalize_missing_positional, finalize_missing_switch, ?_, ?_⟩
  · intro cmd out out2 sw dv h1 h2 h3 h4 h5 h6
    exact finalize_fills cmd out out2 sw dv h1 h2 h3 h4 h5 h6
  · exact parse_eval 3 exampleCmd ["script.py", "alice"] _ rfl

theorem claim4_witness :
    (∃ n, finalize xCmd [] = .error (Err.MissingOption n)) ∧
    alookup [("name", Value.str "alice"), ("count", Value.int 5)] "count" =
      some (Value.int 5) := by
  constructor
  · apply claim4_end_validation.2.1 xCmd [] xSwitch
    · show xSwitch ∈ [xSwitch]
      exact List.mem_singleton.mpr rfl
    · rfl
    · rfl
    · rfl
    · intro sw' h1 h2
      have h1' : sw' ∈ [xSwitch] := h1
      rw [List.mem_singleton.mp h1']
      rfl
  · apply claim4_end_validation.2.2.1 exampleCmd [("name", Value.str "alice")]
      [("name", Value.str "alice"), ("count", Value.int 5)] countSwitch (Value.int 5)
    · show countSwitch ∈ [countSwitch]
      exact List.mem_singleton.mpr rfl
    · rfl
    · rfl
    · rfl
    · intro sw' h1 h2
      have h1' : sw' ∈ [countSwitch] := h1
      rw [List.mem_singleton.mp h1']
      rfl
    · rfl

/-- C5.  A dash-prefixed token with no `=value` part whose switch part is a
registered alias: when the alias's value-parser spec is a non-boolean
built-in type (`str`, `int`, `float`), the loop step fails with
`ValueNotProvided` at that token's index; when the spec is `bool`, the step
merges `{name: true}` into the result and continues. -/
theorem claim5_value_not_provided (cmd : Command) (argv : List String) (i : Nat)
    (tok : String) (rest : List String) (out : Dict) (pidx : Nat) (info : SwitchInfo)
    (hdash : startsDash tok = true)
    (hnov : (splitEq tok).2 = none)
    (hsw : alookup (Command.switches cmd) (splitEq tok).1 = some info) :
    (info.parser = ValueSpec.str ∨ info.parser = ValueSpec.int ∨
        info.parser = ValueSpec.float →
      parseFrom cmd argv i (tok :: rest) out pidx =
        .error (.err (.ValueNotProvided i))) ∧
    (info.parser = ValueSpec.bool →
      parseFrom cmd argv i (tok :: rest) out pidx =
        parseFrom cmd argv (i+1) rest (dmerge out [(info.name, Value.bool true)]) pidx) := by
  rcases hsp : splitEq tok with ⟨sw, val⟩
  rw [hsp] at hnov hsw
  dsimp only at hnov hsw
  subst hnov
  constructor
  · intro hp
    rw [parseFrom]
    simp only [hsp, hdash, if_true, hsw]
    have harg : SwitchInfo.toArgDef info = ⟨info.name, info.parser⟩ := rfl
    rcases hp with h | h | h
    all_goals rw [harg, h]
    all_goals rfl
  · intro hp
    rw [parseFrom]
    simp only [hsp, hdash, if_true, hsw]
    have harg : SwitchInfo.toArgDef info = ⟨info.name, info.parser⟩ := rfl
    rw [harg, hp]
    rfl

theorem claim5_witness :
    parseFrom xCmd ["script.py", "--x"] 1 ["--x"] [] 0 =
      .error (.err (.ValueNotProvided 1)) ∧
    parseFrom vCmd ["script.py", "-v"] 1 ["-v"] [] 0 =
      parseFrom vCmd ["script.py", "-v"] 2 [] (dmerge [] [("v", Value.bool true)]) 0 :=
  ⟨(claim5_value_not_provided xCmd ["script.py", "--x"] 1 "--x" [] [] 0 xSwitch
      rfl rfl rfl).1 (Or.inr (Or.inl rfl)),
   (claim5_value_not_provided vCmd ["script.py", "-v"] 1 "-v" [] [] 0 vSwitch
      rfl rfl rfl).2 rfl⟩

/-- C6.  A dash-prefixed token whose part before the first `=` is not a
registered alias of the node being parsed makes the loop step fail with
`UnknownSwitch` carrying that token's index (and the unmatched switch part),
whatever the schema, token list and accumulated state. -/
theorem claim6_unknown_switch (cmd : Command) (argv : List String) (i : Nat)
    (tok : String) (rest : List String) (out : Dict) (pidx : Nat)
    (hdash : startsDash tok = true)
    (hunk : alookup (Command.switches cmd) (splitEq tok).1 = none) :
    parseFrom cmd argv i (tok :: rest) out pidx =
      .error (.err (.UnknownSwitch i (splitEq tok).1)) := by
  rw [parseFrom]
  rcases hsp : splitEq tok with ⟨sw, val⟩
  rw [hsp] at hunk
  simp only [hsp, hdash, if_true]
  simp [hunk]

theorem claim6_witness :
    parseFrom xCmd ["script.py", "--y=1"] 1 ["--y=1"] [] 0 =
      .error (.err (.UnknownSwitch 1 "--y")) :=
  claim6_unknown_switch xCmd ["script.py", "--y=1"] 1 "--y=1" [] [] 0 rfl rfl

/-- C7.  Parsing a finite token list always terminates: the per-node token
loop is structural recursion on the remaining tokens (bounded by the token
count), and the subcommand recursion is bounded by the schema alone — any
recursion-depth budget of at least the schema's size makes the fuel-indexed
evaluator complete with exactly the total function `Command.parse`'s value,
for every token list. -/
theorem claim7_termination :
    ∀ (cmd : Command) (argv : List String) (fuel : Nat), sizeOf cmd ≤ fuel →
      parseNodeF fuel cmd argv = some (Command.parse cmd argv) :=
  fun cmd argv fuel h => parseNodeF_eq fuel cmd argv h

theorem claim7_witness :
    parseNodeF (sizeOf exampleCmd) exampleCmd ["script.py", "alice"] =
      some (Command.parse exampleCmd ["script.py", "alice"]) :=
  claim7_termination exampleCmd ["script.py", "alice"] (sizeOf exampleCmd)
    (Nat.le_refl (sizeOf exampleCmd))

/-- C8.  The schema is read-only during parsing: running the parser with the
schema threaded through every step like a heap value (reads taken from the
threaded node, a subcommand's final node stored back into its parent's slot)
returns, for every schema, token list and fuel, the very schema it started
from — whether the parse succeeds or fails — together with exactly
`Command.parse`'s result, so one schema can be parsed repeatedly with
identical outcomes. -/
theorem claim8_schema_readonly :
    ∀ (fuel : Nat) (cmd : Command) (argv : List String)
      (res : Except ExitKind Dict) (sch : Command),
      parseNodeFSt fuel cmd argv = some (res, sch) →
      sch = cmd ∧ Command.parse cmd argv = res := by
  intro fuel cmd argv res sch h
  rw [parseNodeFSt_eq fuel cmd argv] at h
  cases hp : parseNodeF fuel cmd argv with
  | none => rw [hp] at h; cases h
  | some r =>
    rw [hp] at h
    simp only [Option.map_some'] at h
    have hpair := Option.some.inj h
    have hr : r = res := congrArg Prod.fst hpair
    have hc : cmd = sch := congrArg Prod.snd hpair
    exact ⟨hc.symm, hr ▸ parse_eval fuel cmd argv r hp⟩

theorem claim8_witness :
    exampleCmd = exampleCmd ∧
      Command.parse exampleCmd ["script.py", "alice"] =
        .ok [("name", Value.str "alice"), ("count", Value.int 5)] :=
  claim8_schema_readonly 3 exampleCmd ["script.py", "alice"]
    (.ok [("name", Value.str "alice"), ("count", Value.int 5)]) exampleCmd rfl

/-- C9, counterexample.  The claim says a switch token ending in a bare `=`
raises `InvalidOption` under an enum spec; but when the empty string is one
of the allowed enum values, `parse_arg` accepts the empty raw value and
returns it, raising nothing. -/
theorem claim9_counterexample :
    parse_arg 0 (some "--x") (some "") ⟨"x", ValueSpec.enum [""]⟩ =
      .ok [("x", Value.str "")] := rfl

/-- C9, amended.  A switch token ending in a bare `=` yields the empty string
as the raw value, which counts as provided: with `str`, `int`, `float` and
`bool` specs it never raises `ValueNotProvided` — `str` parses to `""`,
while `int`, `float` and `bool` raise `InvalidOption` at that token's index —
and with an enum spec it raises `InvalidOption` provided `""` is not among
the allowed values (if it is, the parsed value is `""`, as the
counterexample shows). -/
theorem claim9_amended :
    splitEq "--x=" = ("--x", some "") ∧
    (∀ (i : Nat) (arg : Option String) (name : String),
      parse_arg i arg (some "") ⟨name, ValueSpec.str⟩ = .ok [(name, Value.str "")]) ∧
    (∀ (i : Nat) (arg : Option String) (name : String),
      parse_arg i arg (some "") ⟨name, ValueSpec.int⟩ =
        .error (.InvalidOption i "int" "")) ∧
    (∀ (i : Nat) (arg : Option String) (name : String),
      parse_arg i arg (some "") ⟨name, ValueSpec.float⟩ =
        .error (.InvalidOption i "float" "")) ∧
    (∀ (i : Nat) (arg : Option String) (name : String),
      parse_arg i arg (some "") ⟨name, ValueSpec.bool⟩ =
        .error (.InvalidOption i "bool switch" "")) ∧
    (∀ (i : Nat) (arg : Option String) (name : String) (vals : List String),
      "" ∉ vals →
      parse_arg i arg (some "") ⟨name, ValueSpec.enum vals⟩ =
        .error (.InvalidOption i (joinSlash vals) "")) := by
  refine ⟨rfl, fun i arg name => rfl, fun i arg name => rfl, fun i arg name => rfl,
    fun i arg name => rfl, ?_⟩
  intro i arg name vals hnm
  simp [parse_arg, hnm]

theorem claim9_witness :
    parse_arg 0 (some "--x") (some "") ⟨"x", ValueSpec.enum ["a", "b"]⟩ =
      .error (.InvalidOption 0 "a/b" "") :=
  claim9_amended.2.2.2.2.2 0 (some "--x") "x" ["a", "b"] (by decide)

/-- C10.  The absent-value check of `parse_arg` fires for every non-boolean
spec, not only the built-in type tags: an enum-list spec or a custom callable
spec given no `=value` fails with `ValueNotProvided` before the membership
test or the callable could run — in particular the result does not depend on
the callable `f` at all, so a custom callable is never invoked with an absent
raw value. -/
theorem claim10_absent_value_all_specs :
    ∀ (i : Nat) (arg : Option String) (name : String) (vals : List String)
      (f : Nat → Option String → Option String → Except Err Value),
      parse_arg i arg none ⟨name, ValueSpec.enum vals⟩ =
        .error (.ValueNotProvided i) ∧
      parse_arg i arg none ⟨name, ValueSpec.custom f⟩ =
        .error (.ValueNotProvided i) :=
  fun i arg name vals f => ⟨rfl, rfl⟩
